import Mathlib

/-!
Verification of the Geographic Attribution Engine of the `curiouscat`
repository (`data_extractor.py`), shallowly embedded in Lean 4.

Modelling conventions, stated once:
* Python strings are `String`/`List Char`; `str.lower()` is mapped to
  `Char.toLower` (correct on ASCII; every non-ASCII character occurring in
  the Gazetteer data is already lower case, so the two agree on all data of
  the program).
* Python dicts keyed by country name are association lists
  `List (String × α)` in insertion order, with `dictGet`/`dictSet`
  mirroring `d[k]`/`d.get(k, v₀)`; Python 3.7+ dicts iterate in insertion
  order, which the association list preserves.
* Python `set` literals (the per-region country sets) are kept as lists in
  the order they are written in the source.  Python set iteration order is
  unspecified; the spec (§9) itself declares the induced tie-break
  arbitrary, and no theorem below depends on it.
* All scores are integer valued in the source (every increment is an
  integer literal, floats are never divided before the final confidence),
  so scores are `ℕ`; the final confidence `min(best/50.0, 1.0)` is `ℚ`.
* The scorer and parser perform no I/O and never raise, so they are total
  functions; the network-facing callers of the repository are outside the
  claims and are not modelled.
-/

/-- `str.lower()` on one character (ASCII range, see header note). -/
def pyLowerChar (c : Char) : Char := c.toLower

/-- `s.lower()` as a character list. -/
def lc (s : String) : List Char := s.data.map pyLowerChar

/-- Python regex `\w` / word characters `[a-zA-Z0-9_]` (ASCII model). -/
def isWordChar (c : Char) : Bool := c.isAlphanum || c = '_'

/-- Python whitespace (`\s`, `str.strip`): space, tab, newline, carriage
return, vertical tab, form feed. -/
def pyIsSpace (c : Char) : Bool :=
  c = ' ' || c = '\t' || c = '\n' || c = '\r' || c = Char.ofNat 11 || c = Char.ofNat 12

/-- `str.strip()`: drop whitespace from both ends. -/
def pyStrip (l : List Char) : List Char :=
  ((l.dropWhile pyIsSpace).reverse.dropWhile pyIsSpace).reverse

/-- Python's substring test `pat in text` on character lists. -/
def occursIn (pat : List Char) : List Char → Bool
  | [] => pat.isEmpty
  | c :: t => pat.isPrefixOf (c :: t) || occursIn pat t

/-- `d.get(k, dflt)` on an insertion-ordered association list. -/
def dictGet {α : Type} (d : List (String × α)) (k : String) (dflt : α) : α :=
  match d with
  | [] => dflt
  | p :: d' => if p.1 = k then p.2 else dictGet d' k dflt

/-- `d[k] = v`: update in place if the key exists, else append (insertion
order of a Python dict). -/
def dictSet {α : Type} (d : List (String × α)) (k : String) (v : α) : List (String × α) :=
  match d with
  | [] => [(k, v)]
  | p :: d' => if p.1 = k then (k, v) :: d' else p :: dictSet d' k v

/-- `d[k] = d.get(k, 0) + v`, the accumulation idiom of the scorer. -/
def dictAdd (d : List (String × ℕ)) (k : String) (v : ℕ) : List (String × ℕ) :=
  dictSet d k (dictGet d k 0 + v)

/-- The keys of an association list. -/
def dictKeys {α : Type} (d : List (String × α)) : List String := d.map Prod.fst

/-- `max(d, key=d.get)`: the first entry (in insertion order) holding the
maximal value, `none` on the empty dict. -/
def dictArgmax (d : List (String × ℕ)) : Option (String × ℕ) :=
  match d with
  | [] => none
  | p :: d' => some (d'.foldl (fun best q => if q.2 > best.2 then q else best) p)

/-! ### The Gazetteer (`DataExtractor.__init__`) -/

/-- `self.regions`. -/
def regions : List String :=
  ["Africa", "Antarctica", "Asia", "Europe",
   "Latin America and the Caribbean", "North America", "Oceania"]

/-- `self.region_countries['Africa']`. -/
def africaCountries : List String :=
  ["South Africa", "Egypt", "Nigeria", "Kenya", "Morocco", "Ghana",
   "Ethiopia", "Tanzania", "Algeria", "Libya", "Tunisia", "Sudan",
   "Zimbabwe", "Botswana", "Namibia", "Zambia", "Senegal", "Mali",
   "Burkina Faso", "Niger", "Chad", "Cameroon", "Uganda", "Rwanda",
   "Democratic Republic of the Congo", "Republic of the Congo",
   "Central African Republic", "Gabon", "Equatorial Guinea",
   "São Tomé and Príncipe", "Angola", "Mozambique", "Madagascar",
   "Mauritius", "Seychelles", "Comoros", "Djibouti", "Eritrea",
   "Somalia", "Ivory Coast", "Liberia", "Sierra Leone", "Guinea",
   "Guinea-Bissau", "Gambia", "Cape Verde", "Benin", "Togo",
   "Malawi", "Lesotho", "Eswatini", "Burundi"]

/-- `self.region_countries['Asia']`. -/
def asiaCountries : List String :=
  ["China", "Japan", "India", "South Korea", "North Korea", "Thailand",
   "Indonesia", "Philippines", "Vietnam", "Malaysia", "Singapore",
   "Myanmar", "Cambodia", "Laos", "Brunei", "East Timor", "Mongolia",
   "Taiwan", "Hong Kong", "Macau", "Afghanistan", "Pakistan",
   "Bangladesh", "Sri Lanka", "Maldives", "Nepal", "Bhutan",
   "Kazakhstan", "Uzbekistan", "Turkmenistan", "Tajikistan",
   "Kyrgyzstan", "Iran", "Iraq", "Syria", "Lebanon", "Jordan",
   "Israel", "Palestine", "Saudi Arabia", "Yemen", "Oman",
   "United Arab Emirates", "Qatar", "Bahrain", "Kuwait", "Turkey",
   "Cyprus", "Georgia", "Armenia", "Azerbaijan", "Russia"]

/-- `self.region_countries['Europe']`. -/
def europeCountries : List String :=
  ["United Kingdom", "Germany", "France", "Italy", "Spain", "Netherlands",
   "Norway", "Sweden", "Denmark", "Finland", "Iceland", "Ireland",
   "Belgium", "Luxembourg", "Switzerland", "Austria", "Portugal",
   "Poland", "Czech Republic", "Slovakia", "Hungary", "Slovenia",
   "Croatia", "Bosnia and Herzegovina", "Serbia", "Montenegro",
   "North Macedonia", "Albania", "Kosovo", "Bulgaria", "Romania",
   "Moldova", "Ukraine", "Belarus", "Lithuania", "Latvia", "Estonia",
   "Greece", "Malta", "San Marino", "Vatican City", "Monaco",
   "Andorra", "Liechtenstein"]

/-- `self.region_countries['Latin America and the Caribbean']`. -/
def latinAmericaCountries : List String :=
  ["Brazil", "Mexico", "Argentina", "Colombia", "Peru", "Chile",
   "Venezuela", "Ecuador", "Bolivia", "Paraguay", "Uruguay",
   "Guyana", "Suriname", "French Guiana", "Jamaica", "Cuba",
   "Dominican Republic", "Haiti", "Trinidad and Tobago", "Barbados",
   "Bahamas", "Belize", "Costa Rica", "Panama", "Nicaragua",
   "Honduras", "El Salvador", "Guatemala", "Puerto Rico",
   "Saint Lucia", "Saint Vincent and the Grenadines", "Grenada",
   "Antigua and Barbuda", "Saint Kitts and Nevis", "Dominica"]

/-- `self.region_countries['Oceania']`. -/
def oceaniaCountries : List String :=
  ["Australia", "New Zealand", "Fiji", "Papua New Guinea", "Samoa",
   "Tonga", "Vanuatu", "Solomon Islands", "Palau", "Marshall Islands",
   "Micronesia", "Kiribati", "Tuvalu", "Nauru", "Cook Islands"]

/-- `self.region_countries.get(region, set())`: the candidate-country set of
a region, the empty list for a region absent from the mapping. -/
def regionCountries (region : String) : List String :=
  if region = "Africa" then africaCountries
  else if region = "Antarctica" then ["Antarctica"]
  else if region = "Asia" then asiaCountries
  else if region = "Europe" then europeCountries
  else if region = "Latin America and the Caribbean" then latinAmericaCountries
  else if region = "North America" then ["United States", "Canada", "Greenland"]
  else if region = "Oceania" then oceaniaCountries
  else []

/-- `self.country_synonyms`, as (synonym, canonical) pairs in insertion
order. -/
def countrySynonyms : List (String × String) :=
  [("USA", "United States"),
   ("US", "United States"),
   ("America", "United States"),
   ("UK", "United Kingdom"),
   ("Britain", "United Kingdom"),
   ("England", "United Kingdom"),
   ("Scotland", "United Kingdom"),
   ("Wales", "United Kingdom"),
   ("Northern Ireland", "United Kingdom"),
   ("PRC", "China"),
   ("People's Republic of China", "China"),
   ("ROC", "Taiwan"),
   ("Republic of China", "Taiwan"),
   ("South Korea", "South Korea"),
   ("Republic of Korea", "South Korea"),
   ("North Korea", "North Korea"),
   ("DPRK", "North Korea"),
   ("UAE", "United Arab Emirates"),
   ("Czech Republic", "Czech Republic"),
   ("Czechia", "Czech Republic"),
   ("DRC", "Democratic Republic of the Congo"),
   ("Congo-Kinshasa", "Democratic Republic of the Congo"),
   ("Congo-Brazzaville", "Republic of the Congo")]

/-- `self.skip_prefixes`. -/
def skipPrefixes : List String :=
  ["file:", "image:", "category:", "wp:", "wikipedia:",
   "template:", ":category:", "commons:"]

/-! ### Section Parser (`extract_articles_from_section`)

The source finds all wikilinks with the regex
`\[\[([^|\]]+)(?:\|[^\]]+)?\]\]` (non-overlapping, left to right).  The
scanner below is the deterministic equivalent: at a `[[` it takes the
maximal run of characters other than `|` and `]` as the capture (at least
one), optionally a `|` followed by a maximal nonempty run of non-`]`
characters, then requires `]]`; regex backtracking can never rescue a
failed attempt here because a shorter capture is followed by a character
that neither `|]]` nor `]]` can match, so on failure the scan advances one
character, exactly as `re.findall` does. -/

/-- One attempt of the wikilink regex at the head of the text: the capture
group and the rest of the text after the match. -/
def matchLinkAt (t : List Char) : Option (List Char × List Char) :=
  match t with
  | '[' :: '[' :: t1 =>
    let cap := t1.takeWhile (fun c => c ≠ '|' && c ≠ ']')
    let t2 := t1.dropWhile (fun c => c ≠ '|' && c ≠ ']')
    if cap.isEmpty then none
    else
      match t2 with
      | '|' :: t3 =>
        let disp := t3.takeWhile (fun c => c ≠ ']')
        let t4 := t3.dropWhile (fun c => c ≠ ']')
        if disp.isEmpty then none
        else
          match t4 with
          | ']' :: ']' :: rest => some (cap, rest)
          | _ => none
      | ']' :: ']' :: rest => some (cap, rest)
      | _ => none
  | _ => none

/-- The scan of `re.findall`, fuelled for structural recursion; the fuel is
initialised to the text length, which every step strictly decreases, so it
never runs out. -/
def findLinksAux : ℕ → List Char → List (List Char)
  | 0, _ => []
  | _ + 1, [] => []
  | fuel + 1, c :: t' =>
    match matchLinkAt (c :: t') with
    | some (cap, rest) => cap :: findLinksAux fuel rest
    | none => findLinksAux fuel t'

/-- `re.findall(r'\[\[([^|\]]+)(?:\|[^\]]+)?\]\]', section_content)`. -/
def findWikilinks (t : List Char) : List (List Char) :=
  findLinksAux t.length t

/-- The meta-namespace filter
`re.match(r'^(Category|Template|Help|Wikipedia):', article, re.IGNORECASE)`. -/
def isMetaNamespace (article : List Char) : Bool :=
  ["category:", "template:", "help:", "wikipedia:"].any
    (fun p => p.data.isPrefixOf (article.map pyLowerChar))

/-- The skip-prefix filter
`any(article.lower().startswith(prefix) for prefix in self.skip_prefixes)`. -/
def hasSkippedNamespace (article : List Char) : Bool :=
  skipPrefixes.any (fun p => p.data.isPrefixOf (article.map pyLowerChar))

/-- De-duplication with a `seen` set, preserving first-occurrence order. -/
def dedupFirstAux (seen : List String) : List String → List String
  | [] => []
  | a :: l =>
    if a ∈ seen then dedupFirstAux seen l
    else a :: dedupFirstAux (a :: seen) l

/-- The de-duplication loop of `extract_articles_from_section`. -/
def dedupFirst (l : List String) : List String := dedupFirstAux [] l

/-- `extract_articles_from_section(section_content, region_name)` — the
region name is used only for logging in the source and is ignored here. -/
def extract_articles_from_section (sectionContent : String) : List String :=
  let ms := findWikilinks sectionContent.data
  let articles := ms.filterMap fun m =>
    let article := pyStrip m
    if article ≠ [] ∧ hasSkippedNamespace article = false ∧ isMetaNamespace article = false
    then some (String.mk article) else none
  dedupFirst articles

/-! ### Region Splitter (`parse_geographic_sections`)

The source searches, per region, for
`rf'===\s*{region}\s*===(.*?)(?====|\Z)'` with `re.DOTALL | re.IGNORECASE`
and keeps the first match.  Region names start and end with non-whitespace,
so the greedy `\s*` runs never need backtracking, and the non-greedy
capture with the `(?====|\Z)` lookahead is exactly "everything up to the
first later `===` or the end of the text". -/

/-- Case-insensitive literal prefix: the remaining text if it starts with
the pattern, compared through `lower()` on both sides (`re.IGNORECASE`). -/
def dropCaseless : List Char → List Char → Option (List Char)
  | [], t => some t
  | _, [] => none
  | p :: ps, c :: t =>
    if pyLowerChar p = pyLowerChar c then dropCaseless ps t else none

/-- Match `===\s*REGION\s*===` at the head of the text; the remaining text
after the closing marker on success. -/
def headerMatchAt (region : List Char) (t : List Char) : Option (List Char) :=
  match t with
  | '=' :: '=' :: '=' :: t1 =>
    match dropCaseless region (t1.dropWhile pyIsSpace) with
    | none => none
    | some t2 =>
      match t2.dropWhile pyIsSpace with
      | '=' :: '=' :: '=' :: rest => some rest
      | _ => none
  | _ => none

/-- `re.search`: the first position at which the header matches. -/
def findHeader (region : List Char) : List Char → Option (List Char)
  | [] => none
  | c :: t =>
    match headerMatchAt region (c :: t) with
    | some rest => some rest
    | none => findHeader region t

/-- The non-greedy capture `(.*?)(?====|\Z)` under `DOTALL`: everything up
to the first `===` or the end of the text. -/
def captureSection : List Char → List Char
  | [] => []
  | c :: t =>
    if ('=' :: '=' :: '=' :: []).isPrefixOf (c :: t) then []
    else c :: captureSection t

/-- The captured section of one region inside the page, if its header is
found (`match.group(1)` of the source's regex search). -/
def regionSection (region : String) (content : String) : Option (List Char) :=
  (findHeader region.data content.data).map captureSection

/-- One region of the loop of `parse_geographic_sections`: skip a region
whose header is not found, and record `(region, articles)` only when the
extracted title list is nonempty (`if articles:` in the source). -/
def parseStep (content : String) (acc : List (String × List String))
    (region : String) : List (String × List String) :=
  match regionSection region content with
  | none => acc
  | some sec =>
    let articles := extract_articles_from_section (String.mk sec)
    if articles ≠ [] then acc ++ [(region, articles)] else acc

/-- `parse_geographic_sections(content)`: region ↦ extracted titles, in
region order (`if not content: return {}` first). -/
def parse_geographic_sections (content : String) : List (String × List String) :=
  if content.data = [] then []
  else regions.foldl (parseStep content) []

/-! ### Attribution Scorer (`identify_country_from_context`)

`len(re.findall(rf'\b{re.escape(country_lower)}\b', full_text))` is
modelled by a single left-to-right scan counting the positions where the
pattern occurs with a non-word character (or a text boundary) on both
sides.  Every pattern fed to it (a country name) starts and ends with a
word character, for which `\b` means exactly that; and two such
boundary-delimited occurrences can never overlap, so counting *all*
boundary positions equals the non-overlapping `findall` count. -/

/-- Whether the character right after the matched pattern (if any) is a
non-word character, i.e. the closing `\b` holds. -/
def wbAfterOk (pat t : List Char) : Bool :=
  match (t.drop pat.length).head? with
  | none => true
  | some c => !isWordChar c

/-- The word-boundary occurrence scan; `prevIsWord` says whether the
character before the current position is a word character. -/
def wbCountAux (pat : List Char) : Bool → List Char → ℕ
  | _, [] => 0
  | prevIsWord, c :: t =>
    (if !prevIsWord && pat.isPrefixOf (c :: t) && wbAfterOk pat (c :: t)
     then 1 else 0)
    + wbCountAux pat (isWordChar c) t

/-- `len(re.findall(rf'\b{pat}\b', text))` for a pattern with word
characters at both ends. -/
def wordBoundaryCount (pat text : List Char) : ℕ := wbCountAux pat false text

/-- The per-category bonus of the scorer: `+20` when the country name is
contained in the lower-cased category, a further `+30` when the category
also contains one of the locative patterns `in X`, `X ` (trailing space)
or `of X`. -/
def catBonus (cl catl : List Char) : ℕ :=
  if occursIn cl catl then
    20 + (if occursIn (('i' :: 'n' :: ' ' :: []) ++ cl) catl
            || occursIn (cl ++ [' ']) catl
            || occursIn (('o' :: 'f' :: ' ' :: []) ++ cl) catl
          then 30 else 0)
  else 0

/-- `full_text = f"{title} {extract} {' '.join(categories)}".lower()`. -/
def fullTextOf (title extract : String) (categories : List String) : List Char :=
  lc (title ++ " " ++ extract ++ " " ++ String.intercalate " " categories)

/-- The generic per-country score of the main loop: whole-word mentions
×10, category bonuses, +15 title containment, +5 extract containment. -/
def countryScore (fullText : List Char) (title extract : String)
    (categories : List String) (country : String) : ℕ :=
  let cl := lc country
  10 * wordBoundaryCount cl fullText
    + categories.foldl (fun acc cat => acc + catBonus cl (lc cat)) 0
    + (if occursIn cl (lc title) then 15 else 0)
    + (if occursIn cl (lc extract) then 5 else 0)

/-- The main scoring loop: `country_scores[country] = score` for every
candidate of the region whose score is positive. -/
def genericScores (fullText : List Char) (title extract : String)
    (categories : List String) (rc : List String) : List (String × ℕ) :=
  rc.foldl (fun d country =>
    let s := countryScore fullText title extract categories country
    if s > 0 then dictSet d country s else d) []

/-- The synonym pass: `+8` to the canonical country for every synonym whose
canonical is a candidate of the region and whose lower-cased form occurs in
the analysis text. -/
def synonymPass (fullText : List Char) (rc : List String)
    (d : List (String × ℕ)) : List (String × ℕ) :=
  countrySynonyms.foldl (fun d p =>
    if rc.contains p.2 && occursIn (lc p.1) fullText
    then dictAdd d p.2 8 else d) d

/-- `_apply_special_location_rules(full_text, categories, country_scores,
region)`; the `categories` argument is unused in the source too. -/
def applySpecialLocationRules (fullText : List Char)
    (d : List (String × ℕ)) (region : String) : List (String × ℕ) :=
  let d1 := if occursIn "hong kong".data fullText
            then dictAdd d "Hong Kong" 50 else d
  let d2 := if occursIn "macau".data fullText || occursIn "macao".data fullText
            then dictAdd d1 "Macau" 50 else d1
  let d3 := if occursIn "taiwan".data fullText
               || occursIn "republic of china".data fullText
            then dictAdd d2 "Taiwan" 40
            else if occursIn "mainland china".data fullText
                    || occursIn "people's republic".data fullText
                 then dictAdd d2 "China" 40 else d2
  let d4 := if ["england", "english", "london"].any
                 (fun s => occursIn s.data fullText)
            then dictAdd d3 "United Kingdom" 30 else d3
  let d5 := if ["scotland", "scottish", "edinburgh"].any
                 (fun s => occursIn s.data fullText)
            then dictAdd d4 "United Kingdom" 30 else d4
  let d6 := if ["wales", "welsh", "cardiff"].any
                 (fun s => occursIn s.data fullText)
            then dictAdd d5 "United Kingdom" 30 else d5
  let d7 := if occursIn "northern ireland".data fullText
            then dictAdd d6 "United Kingdom" 30 else d6
  if region = "North America" then
    if ["united states", " usa ", " us ", "american"].any
         (fun s => occursIn s.data fullText)
    then dictAdd d7 "United States" 25
    else if ["canada", "canadian"].any (fun s => occursIn s.data fullText)
         then dictAdd d7 "Canada" 25 else d7
  else d7

/-- The `country_scores` dict at the end of
`identify_country_from_context`, right before the argmax. -/
def countryScoresFinal (title extract : String) (categories : List String)
    (region : String) : List (String × ℕ) :=
  let fullText := fullTextOf title extract categories
  let rc := regionCountries region
  applySpecialLocationRules fullText
    (synonymPass fullText rc (genericScores fullText title extract categories rc))
    region

/-- `identify_country_from_context(article_title, article_extract,
categories, region) -> (Optional[str], float)`.  `round(confidence, 2)` of
the caller is the identity on every reachable confidence (scores are
integers, so the confidence is a multiple of 1/50) and is not repeated
here. -/
def identify_country_from_context (title extract : String)
    (categories : List String) (region : String) : Option String × ℚ :=
  match dictArgmax (countryScoresFinal title extract categories region) with
  | none => (none, 0)
  | some p => (some p.1, min ((p.2 : ℚ) / 50) 1)

/-! ### Aggregator (`organize_by_countries`)

The enrichment payload fetched over the network (descriptions, thumbnails)
is opaque to the routing decision; an article is represented by exactly
the four fields the scorer consumes, and the buckets hold these records. -/

/-- The scorer's input for one article: title, extract, categories and the
source region (spec §3, `AttributionInput`). -/
structure ArticleIn where
  title : String
  extract : String
  categories : List String
  region : String
deriving DecidableEq

/-- The attribution of one article. -/
def identifyA (a : ArticleIn) : Option String × ℚ :=
  identify_country_from_context a.title a.extract a.categories a.region

/-- One iteration of the loop of `organize_by_countries`: route into the
country bucket when `identified_country and confidence > 0.1` (Python
truthiness: `None` and the empty string are falsy), else into the
unidentified list. -/
def organizeStep (acc : List (String × List ArticleIn) × List ArticleIn)
    (a : ArticleIn) : List (String × List ArticleIn) × List ArticleIn :=
  match (identifyA a).1 with
  | some k =>
    if k ≠ "" ∧ (identifyA a).2 > 1/10
    then (dictSet acc.1 k (dictGet acc.1 k [] ++ [a]), acc.2)
    else (acc.1, acc.2 ++ [a])
  | none => (acc.1, acc.2 ++ [a])

/-- `organize_by_countries`: fold the stream, then append the
`'Unidentified'` bucket only when it is nonempty. -/
def organize_by_countries (xs : List ArticleIn) : List (String × List ArticleIn) :=
  let acc := xs.foldl organizeStep ([], [])
  if acc.2 = [] then acc.1 else acc.1 ++ [("Unidentified", acc.2)]

/-- The name of the bucket an article is routed to, mirroring the
condition of `organizeStep`. -/
def routeName (a : ArticleIn) : String :=
  match (identifyA a).1 with
  | some k => if k ≠ "" ∧ (identifyA a).2 > 1/10 then k else "Unidentified"
  | none => "Unidentified"

/-- The seven countries the special-location rules can inject into the
score dict regardless of the source region. -/
def specialRuleCountries : List String :=
  ["Hong Kong", "Macau", "Taiwan", "China",
   "United Kingdom", "United States", "Canada"]

/-! ### Basic lemmas about the helpers -/

theorem occursIn_iff (pat t : List Char) : occursIn pat t = true ↔ pat <:+: t := by
  induction t with
  | nil => simp [occursIn, List.isEmpty_iff, List.infix_nil]
  | cons c t ih =>
    simp only [occursIn, Bool.or_eq_true, List.isPrefixOf_iff_prefix, ih,
      List.infix_cons_iff]

theorem dictGet_dictSet_self {α : Type} (d : List (String × α)) (k : String)
    (v : α) (dflt : α) : dictGet (dictSet d k v) k dflt = v := by
  induction d with
  | nil => simp [dictGet, dictSet]
  | cons p d ih =>
    by_cases h : p.1 = k <;> simp [dictGet, dictSet, h, ih]

theorem dictGet_dictSet_ne {α : Type} (d : List (String × α)) (k k' : String)
    (v : α) (dflt : α) (h : k' ≠ k) :
    dictGet (dictSet d k' v) k dflt = dictGet d k dflt := by
  induction d with
  | nil => simp [dictGet, dictSet, h]
  | cons p d ih =>
    by_cases hp : p.1 = k' <;> simp [dictGet, dictSet, hp, h, ih]

theorem dictGet_dictAdd (d : List (String × ℕ)) (k k' : String) (v : ℕ) :
    dictGet (dictAdd d k' v) k 0
      = dictGet d k 0 + (if k' = k then v else 0) := by
  by_cases h : k' = k
  · subst h; simp [dictAdd, dictGet_dictSet_self]
  · simp [dictAdd, dictGet_dictSet_ne _ _ _ _ _ h, h]

theorem mem_dictSet {α : Type} (d : List (String × α)) (k : String) (v : α)
    (p : String × α) (hp : p ∈ dictSet d k v) : p ∈ d ∨ p = (k, v) := by
  induction d with
  | nil => simp [dictSet] at hp; simp [hp]
  | cons q d ih =>
    by_cases h : q.1 = k <;> simp [dictSet, h] at hp
    · rcases hp with h1 | h1
      · right; simp [h1]
      · left; simp [h1]
    · rcases hp with h1 | h1
      · left; simp [h1]
      · rcases ih h1 with h2 | h2
        · left; simp [h2]
        · right; exact h2

theorem mem_dictAdd (d : List (String × ℕ)) (k : String) (v : ℕ)
    (p : String × ℕ) (hp : p ∈ dictAdd d k v) :
    p ∈ d ∨ p = (k, dictGet d k 0 + v) :=
  mem_dictSet d k _ p hp

theorem dictArgmax_mem (d : List (String × ℕ)) (p : String × ℕ)
    (h : dictArgmax d = some p) : p ∈ d := by
  match d with
  | [] => simp [dictArgmax] at h
  | q :: d' =>
    simp only [dictArgmax, Option.some.injEq] at h
    subst h
    have : ∀ (l : List (String × ℕ)) (b : String × ℕ),
        l.foldl (fun best q => if q.2 > best.2 then q else best) b = b ∨
        l.foldl (fun best q => if q.2 > best.2 then q else best) b ∈ l := by
      intro l
      induction l with
      | nil => intro b; left; rfl
      | cons x l ih =>
        intro b
        simp only [List.foldl_cons]
        rcases ih (if x.2 > b.2 then x else b) with h1 | h1
        · rw [h1]
          by_cases hx : x.2 > b.2
          · right; simp [hx]
          · left; simp [hx]
        · right; exact List.mem_cons_of_mem _ h1
    rcases this d' q with h1 | h1
    · rw [h1]; exact List.mem_cons_self _ _
    · exact List.mem_cons_of_mem _ h1

theorem dictKeys_dictSet {α : Type} (d : List (String × α)) (k : String)
    (v : α) (x : String) (hx : x ∈ dictKeys (dictSet d k v)) :
    x ∈ dictKeys d ∨ x = k := by
  simp only [dictKeys, List.mem_map] at hx ⊢
  obtain ⟨p, hp, hpx⟩ := hx
  rcases mem_dictSet d k v p hp with h | h
  · left; exact ⟨p, h, hpx⟩
  · right; rw [← hpx, h]

theorem dictGet_append {α : Type} (d₁ d₂ : List (String × α)) (k : String)
    (dflt : α) :
    dictGet (d₁ ++ d₂) k dflt
      = if k ∈ dictKeys d₁ then dictGet d₁ k dflt else dictGet d₂ k dflt := by
  induction d₁ with
  | nil => simp [dictKeys, dictGet]
  | cons p d ih =>
    by_cases h : p.1 = k
    · have hmem : k ∈ dictKeys (p :: d) := by simp [dictKeys, h.symm]
      rw [if_pos hmem]
      simp [dictGet, h]
    · have hk : ¬ k = p.1 := fun e => h e.symm
      have hiff : k ∈ dictKeys (p :: d) ↔ k ∈ dictKeys d := by
        simp [dictKeys, List.mem_cons, hk]
      have hstep : dictGet ((p :: d) ++ d₂) k dflt = dictGet (d ++ d₂) k dflt := by
        simp [dictGet, h]
      have hstep2 : dictGet (p :: d) k dflt = dictGet d k dflt := by
        simp [dictGet, h]
      rw [hstep, ih]
      by_cases hm : k ∈ dictKeys d
      · rw [if_pos hm, if_pos (hiff.mpr hm), hstep2]
      · rw [if_neg hm, if_neg (fun hc => hm (hiff.mp hc))]

/-! ### Which keys the scoring pipeline can create -/

theorem keys_scoreFold (P : String → Prop) (f : String → ℕ) :
    ∀ (l : List String) (d : List (String × ℕ)),
      (∀ y ∈ dictKeys d, P y) → (∀ c ∈ l, P c) →
      ∀ x ∈ dictKeys (l.foldl
        (fun d c => if f c > 0 then dictSet d c (f c) else d) d), P x := by
  intro l
  induction l with
  | nil => intro d hd _ x hx; exact hd x hx
  | cons c l ih =>
    intro d hd hl x hx
    simp only [List.foldl_cons] at hx
    refine ih _ ?_ (fun c hc => hl c (List.mem_cons_of_mem _ hc)) x hx
    intro y hy
    by_cases hc : f c > 0
    · rw [if_pos hc] at hy
      rcases dictKeys_dictSet _ _ _ _ hy with h | h
      · exact hd y h
      · rw [h]; exact hl c (List.mem_cons_self _ _)
    · rw [if_neg hc] at hy; exact hd y hy

theorem keys_genericScores (ft : List Char) (t e : String) (cats : List String)
    (rc : List String) (x : String)
    (hx : x ∈ dictKeys (genericScores ft t e cats rc)) : x ∈ rc := by
  refine keys_scoreFold (· ∈ rc) (countryScore ft t e cats) rc [] ?_ ?_ x ?_
  · intro y hy; simp [dictKeys] at hy
  · exact fun c hc => hc
  · exact hx

theorem keys_synonymPass (ft : List Char) (rc : List String) :
    ∀ (syns : List (String × String)) (d : List (String × ℕ)) (x : String),
      x ∈ dictKeys (syns.foldl (fun d p =>
        if rc.contains p.2 && occursIn (lc p.1) ft
        then dictAdd d p.2 8 else d) d) →
      x ∈ dictKeys d ∨ x ∈ rc := by
  intro syns
  induction syns with
  | nil => intro d x hx; exact Or.inl hx
  | cons p syns ih =>
    intro d x hx
    simp only [List.foldl_cons] at hx
    rcases ih _ x hx with h | h
    · by_cases hc : rc.contains p.2 && occursIn (lc p.1) ft
      · rw [if_pos hc] at h
        rcases dictKeys_dictSet _ _ _ _ h with h1 | h1
        · exact Or.inl h1
        · right
          rw [h1]
          have := (Bool.and_eq_true _ _).mp hc
          exact List.mem_of_elem_eq_true this.1
      · rw [if_neg hc] at h; exact Or.inl h
    · exact Or.inr h

theorem keys_condAdd (c : Bool) (d : List (String × ℕ)) (k : String) (v : ℕ)
    (x : String) (hx : x ∈ dictKeys (if c then dictAdd d k v else d)) :
    x ∈ dictKeys d ∨ x = k := by
  cases c
  · simp only [Bool.false_eq_true, if_false] at hx; exact Or.inl hx
  · simp only [if_true] at hx; exact dictKeys_dictSet _ _ _ _ hx

theorem keys_condAdd2 (c₁ c₂ : Bool) (d : List (String × ℕ))
    (k₁ k₂ : String) (v₁ v₂ : ℕ) (x : String)
    (hx : x ∈ dictKeys (if c₁ then dictAdd d k₁ v₁
        else if c₂ then dictAdd d k₂ v₂ else d)) :
    x ∈ dictKeys d ∨ x = k₁ ∨ x = k₂ := by
  cases c₁
  · simp only [Bool.false_eq_true, if_false] at hx
    rcases keys_condAdd c₂ d k₂ v₂ x hx with h | h
    · exact Or.inl h
    · exact Or.inr (Or.inr h)
  · simp only [if_true] at hx
    rcases dictKeys_dictSet _ _ _ _ hx with h | h
    · exact Or.inl h
    · exact Or.inr (Or.inl h)

theorem keys_applySpecialLocationRules (ft : List Char)
    (d : List (String × ℕ)) (r : String) (x : String)
    (hx : x ∈ dictKeys (applySpecialLocationRules ft d r)) :
    x ∈ dictKeys d ∨ x ∈ specialRuleCountries := by
  unfold applySpecialLocationRules at hx
  have hspec : ∀ s : String, s = "Hong Kong" ∨ s = "Macau" ∨ s = "Taiwan" ∨ s = "China"
      ∨ s = "United Kingdom" ∨ s = "United States" ∨ s = "Canada" →
      s ∈ specialRuleCountries := by
    intro s hs
    rcases hs with h | h | h | h | h | h | h <;> (rw [h]; simp [specialRuleCountries])
  -- unpeel the chain from the outermost conditional inwards
  by_cases hr : r = "North America"
  · rw [if_pos hr] at hx
    rcases keys_condAdd2 _ _ _ _ _ _ _ x hx with h7 | h | h
    rotate_left
    · exact Or.inr (hspec x (by tauto))
    · exact Or.inr (hspec x (by tauto))
    rcases keys_condAdd _ _ _ _ x h7 with h6 | h
    rotate_left
    · exact Or.inr (hspec x (by tauto))
    rcases keys_condAdd _ _ _ _ x h6 with h5 | h
    rotate_left
    · exact Or.inr (hspec x (by tauto))
    rcases keys_condAdd _ _ _ _ x h5 with h4 | h
    rotate_left
    · exact Or.inr (hspec x (by tauto))
    rcases keys_condAdd _ _ _ _ x h4 with h3 | h
    rotate_left
    · exact Or.inr (hspec x (by tauto))
    rcases keys_condAdd2 _ _ _ _ _ _ _ x h3 with h2 | h | h
    rotate_left
    · exact Or.inr (hspec x (by tauto))
    · exact Or.inr (hspec x (by tauto))
    rcases keys_condAdd _ _ _ _ x h2 with h1 | h
    rotate_left
    · exact Or.inr (hspec x (by tauto))
    rcases keys_condAdd _ _ _ _ x h1 with h0 | h
    rotate_left
    · exact Or.inr (hspec x (by tauto))
    exact Or.inl h0
  · rw [if_neg hr] at hx
    rcases keys_condAdd _ _ _ _ x hx with h6 | h
    rotate_left
    · exact Or.inr (hspec x (by tauto))
    rcases keys_condAdd _ _ _ _ x h6 with h5 | h
    rotate_left
    · exact Or.inr (hspec x (by tauto))
    rcases keys_condAdd _ _ _ _ x h5 with h4 | h
    rotate_left
    · exact Or.inr (hspec x (by tauto))
    rcases keys_condAdd _ _ _ _ x h4 with h3 | h
    rotate_left
    · exact Or.inr (hspec x (by tauto))
    rcases keys_condAdd2 _ _ _ _ _ _ _ x h3 with h2 | h | h
    rotate_left
    · exact Or.inr (hspec x (by tauto))
    · exact Or.inr (hspec x (by tauto))
    rcases keys_condAdd _ _ _ _ x h2 with h1 | h
    rotate_left
    · exact Or.inr (hspec x (by tauto))
    rcases keys_condAdd _ _ _ _ x h1 with h0 | h
    rotate_left
    · exact Or.inr (hspec x (by tauto))
    exact Or.inl h0

theorem identify_mem_of_some (t e : String) (cats : List String) (r k : String)
    (h : (identify_country_from_context t e cats r).1 = some k) :
    k ∈ regionCountries r ∨ k ∈ specialRuleCountries := by
  unfold identify_country_from_context at h
  cases harg : dictArgmax (countryScoresFinal t e cats r) with
  | none => rw [harg] at h; simp at h
  | some p =>
    rw [harg] at h
    simp only [Option.some.injEq] at h
    have hp := dictArgmax_mem _ _ harg
    have hk : k ∈ dictKeys (countryScoresFinal t e cats r) := by
      rw [← h]
      exact List.mem_map_of_mem Prod.fst hp
    unfold countryScoresFinal at hk
    rcases keys_applySpecialLocationRules _ _ _ _ hk with h1 | h1
    · rcases keys_synonymPass _ _ _ _ _ h1 with h2 | h2
      · exact Or.inl (keys_genericScores _ _ _ _ _ _ h2)
      · exact Or.inl h2
    · exact Or.inr h1

theorem regionCountries_of_unknown (r : String) (hr : r ∉ regions) :
    regionCountries r = [] := by
  unfold regionCountries
  split_ifs with h1 h2 h3 h4 h5 h6 h7
  · exact absurd (h1 ▸ (by decide : ("Africa" : String) ∈ regions)) (fun h => hr h)
  · exact absurd (h2 ▸ (by decide : ("Antarctica" : String) ∈ regions)) (fun h => hr h)
  · exact absurd (h3 ▸ (by decide : ("Asia" : String) ∈ regions)) (fun h => hr h)
  · exact absurd (h4 ▸ (by decide : ("Europe" : String) ∈ regions)) (fun h => hr h)
  · exact absurd (h5 ▸ (by decide : ("Latin America and the Caribbean" : String) ∈ regions)) (fun h => hr h)
  · exact absurd (h6 ▸ (by decide : ("North America" : String) ∈ regions)) (fun h => hr h)
  · exact absurd (h7 ▸ (by decide : ("Oceania" : String) ∈ regions)) (fun h => hr h)
  · rfl

/-! ### Claim C1 — region isolation -/

/-- C1, counterexample: the claim "the Attribution Scorer never returns a
country absent from that region's candidate set" is false on the code: for
the Asia-region input with title "London" (empty extract and categories)
the special-location rules award United Kingdom 30 points although the
United Kingdom is not an Asia candidate, and the scorer returns it with
confidence 0.6. -/
theorem region_isolation_counterexample :
    identify_country_from_context "London" "" [] "Asia"
        = (some "United Kingdom", 3/5)
      ∧ "United Kingdom" ∉ regionCountries "Asia" := by
  constructor
  · have hd : countryScoresFinal "London" "" [] "Asia"
        = [("United Kingdom", 30)] := by decide
    rw [identify_country_from_context, hd]
    norm_num [dictArgmax]
  · decide

/-- C1, amended: for every attribution input and region, the returned
country is a member of the region's registered candidate set *or one of
the seven hard-coded special-rule territories* (Hong Kong, Macau, Taiwan,
China, United Kingdom, United States, Canada), which the special-location
rules can inject regardless of the region; no other out-of-region country
(e.g. France for an Asia article) can ever be returned. -/
theorem region_isolation_up_to_special_rules (t e : String)
    (cats : List String) (r k : String)
    (h : (identify_country_from_context t e cats r).1 = some k) :
    k ∈ regionCountries r ∨ k ∈ specialRuleCountries :=
  identify_mem_of_some t e cats r k h

/-- Witness for the amended C1 theorem at a concrete input. -/
theorem region_isolation_up_to_special_rules_witness :
    (identify_country_from_context "X" "Located in Hong Kong"
        ["Buildings in Hong Kong"] "Asia").1 = some "Hong Kong"
      ∧ ("Hong Kong" ∈ regionCountries "Asia"
          ∨ "Hong Kong" ∈ specialRuleCountries) := by
  have hd : countryScoresFinal "X" "Located in Hong Kong"
      ["Buildings in Hong Kong"] "Asia" = [("Hong Kong", 125)] := by decide
  have h1 : (identify_country_from_context "X" "Located in Hong Kong"
      ["Buildings in Hong Kong"] "Asia").1 = some "Hong Kong" := by
    rw [identify_country_from_context, hd]; rfl
  exact ⟨h1, region_isolation_up_to_special_rules _ _ _ _ _ h1⟩

/-! ### Claim C5 — loud failure on an unknown region -/

/-- C5, counterexample: the claim "invoking the scorer with a region absent
from the Gazetteer raises an error" is false on the code:
`self.region_countries.get(region, set())` silently substitutes the empty
candidate set, and the scorer returns an ordinary result — here even a
country, produced by a special-location rule. -/
theorem unknown_region_counterexample :
    identify_country_from_context "London" "" [] "Atlantis"
      = (some "United Kingdom", 3/5) := by
  have hd : countryScoresFinal "London" "" [] "Atlantis"
      = [("United Kingdom", 30)] := by decide
  rw [identify_country_from_context, hd]
  norm_num [dictArgmax]

/-- C5, amended: invoking the scorer with a region absent from the
Gazetteer's region mapping does not raise: the candidate set silently
defaults to empty, so the generic and synonym signals contribute nothing
and the result is either no country at all or one injected by the
special-location rules; bad or missing text never raises either (the
scorer is a total function). -/
theorem unknown_region_degrades_silently (t e : String) (cats : List String)
    (r : String) (hr : r ∉ regions) :
    (identify_country_from_context t e cats r).1 = none
      ∨ ∃ k, (identify_country_from_context t e cats r).1 = some k
          ∧ k ∈ specialRuleCountries := by
  cases h : (identify_country_from_context t e cats r).1 with
  | none => exact Or.inl rfl
  | some k =>
    right
    refine ⟨k, rfl, ?_⟩
    rcases identify_mem_of_some t e cats r k h with h1 | h1
    · rw [regionCountries_of_unknown r hr] at h1
      exact absurd h1 (List.not_mem_nil k)
    · exact h1

/-- Witness for the amended C5 theorem at a concrete unknown region. -/
theorem unknown_region_degrades_silently_witness :
    ("Atlantis" : String) ∉ regions
      ∧ ((identify_country_from_context "Ancient ruin" "" [] "Atlantis").1 = none
          ∨ ∃ k, (identify_country_from_context "Ancient ruin" "" [] "Atlantis").1 = some k
              ∧ k ∈ specialRuleCountries) :=
  ⟨by decide, unknown_region_degrades_silently "Ancient ruin" "" [] "Atlantis" (by decide)⟩

/-! ### Claim C3 — fragment stripping in the Section Parser -/

/-- C3, counterexample: the claim "the Section Parser strips any trailing
URL fragment (`#...`) or query (`?...`)" is false on the code: the parser
keeps link targets verbatim (no stripping exists in
`extract_articles_from_section`), so `[[Foo#Section]]` and
`[[Bar?query=1|shown]]` yield titles that still carry their fragment and
query suffixes. -/
theorem fragment_stripping_counterexample :
    extract_articles_from_section "[[Foo#Section]] [[Bar?query=1|shown]]"
        = ["Foo#Section", "Bar?query=1"]
      ∧ "#Section".data.IsSuffix "Foo#Section".data
      ∧ "?query=1".data.IsSuffix "Bar?query=1".data := by
  refine ⟨by decide, ⟨"Foo".data, by decide⟩, ⟨"Bar".data, by decide⟩⟩

/-- C3, amended: the Section Parser extracts each double-bracket link
target (the part before an optional pipe separator), trims surrounding
whitespace, applies the skip-prefix and meta-namespace filters and
de-duplicates — but performs no `#`-fragment or `?`-query stripping, so
such suffixes survive verbatim in its output (the only fragment/query
stripping in the repository lives in the backend's URL-to-title helper,
not in the Section Parser). -/
theorem parser_keeps_fragments :
    extract_articles_from_section
        " [[ Foo#Bar |display]] [[file:X.jpg]] [[Baz?q]] [[ Foo#Bar ]]"
      = ["Foo#Bar", "Baz?q"] := by decide

/-! ### Claim C7 — a found section with no titles is omitted -/

theorem mem_parseStep (content : String) (acc : List (String × List String))
    (region : String) (q : String × List String)
    (hq : q ∈ parseStep content acc region) : q ∈ acc ∨ q.2 ≠ [] := by
  unfold parseStep at hq
  cases hsec : regionSection region content with
  | none => rw [hsec] at hq; exact Or.inl hq
  | some sec =>
    rw [hsec] at hq
    simp only at hq
    by_cases harts : extract_articles_from_section (String.mk sec) ≠ []
    · rw [if_pos harts] at hq
      rcases List.mem_append.mp hq with h | h
      · exact Or.inl h
      · right
        rcases List.mem_singleton.mp h with rfl
        exact harts
    · rw [if_neg harts] at hq; exact Or.inl hq

/-- C7, amended: a found section with no extractable titles is indeed not
an error (the Section Parser totally returns `[]`), but
`parse_geographic_sections` then *omits* the region from its result — the
mapping never contains a region key bound to the empty list, instead of
containing the region bound to `[]` as the claim states. -/
theorem empty_sections_omitted (content : String) (p : String × List String)
    (hp : p ∈ parse_geographic_sections content) : p.2 ≠ [] := by
  unfold parse_geographic_sections at hp
  by_cases hc : content.data = []
  · rw [if_pos hc] at hp; exact absurd hp (List.not_mem_nil p)
  · rw [if_neg hc] at hp
    have inv : ∀ (l : List String) (acc : List (String × List String)),
        (∀ q ∈ acc, q.2 ≠ []) →
        ∀ q ∈ l.foldl (parseStep content) acc, q.2 ≠ [] := by
      intro l
      induction l with
      | nil => exact fun acc hacc q hq => hacc q hq
      | cons region l ih =>
        intro acc hacc q hq
        simp only [List.foldl_cons] at hq
        refine ih _ ?_ q hq
        intro q' hq'
        rcases mem_parseStep content acc region q' hq' with h | h
        · exact hacc q' h
        · exact h
    exact inv regions [] (fun q hq => absurd hq (List.not_mem_nil q)) p hp

/-- Witness for the amended C7 theorem: a page whose Asia section does
yield a title produces a nonempty entry. -/
theorem empty_sections_omitted_witness :
    ("Asia", ["X"]) ∈ parse_geographic_sections "=== Asia ===\n[[X]]"
      ∧ (("Asia", ["X"]) : String × List String).2 ≠ [] :=
  ⟨by decide, empty_sections_omitted "=== Asia ===\n[[X]]" ("Asia", ["X"]) (by decide)⟩

/-- C7, counterexample: the claim "the resulting region-to-titles mapping
contains that region with an empty list" is false on the code: for a page
whose Asia header is found but whose section holds no extractable titles,
the parser extracts `[]` and `parse_geographic_sections` returns a mapping
*without* the Asia key at all. -/
theorem empty_section_counterexample :
    (regionSection "Asia" "=== Asia ===\nno links here").isSome = true
      ∧ (regionSection "Asia" "=== Asia ===\nno links here").map
          (fun sec => extract_articles_from_section (String.mk sec)) = some []
      ∧ parse_geographic_sections "=== Asia ===\nno links here" = [] := by
  refine ⟨by decide, by decide, by decide⟩

/-! ### Claim C8 — end-to-end scenario A -/

/-- C8: on the scenario-A markup, the Asia section is found and yields
exactly `["Fictitious Temple"]` (duplicate removed preserving first
occurrence, `File:` link skipped), the Europe section is found and yields
`[]`; consequently the full parse maps Asia alone. -/
theorem scenario_a_sections :
    (regionSection "Asia"
        "=== Asia ===\n[[Fictitious Temple]] [[File:pic.jpg]] [[Fictitious Temple]]\n=== Europe ===").map
        (fun sec => extract_articles_from_section (String.mk sec))
      = some ["Fictitious Temple"]
    ∧ (regionSection "Europe"
        "=== Asia ===\n[[Fictitious Temple]] [[File:pic.jpg]] [[Fictitious Temple]]\n=== Europe ===").map
        (fun sec => extract_articles_from_section (String.mk sec))
      = some []
    ∧ parse_geographic_sections
        "=== Asia ===\n[[Fictitious Temple]] [[File:pic.jpg]] [[Fictitious Temple]]\n=== Europe ==="
      = [("Asia", ["Fictitious Temple"])] := by
  refine ⟨by decide, by decide, by decide⟩

/-! ### Claim C2 — aggregator threshold routing -/

theorem empty_not_mem_regionCountries (r : String) : "" ∉ regionCountries r := by
  unfold regionCountries
  split_ifs <;> decide

theorem identifyA_ne_empty (a : ArticleIn) (k : String)
    (h : (identifyA a).1 = some k) : k ≠ "" := by
  intro he
  subst he
  rcases identify_mem_of_some a.title a.extract a.categories a.region "" h with h1 | h1
  · exact empty_not_mem_regionCountries a.region h1
  · exact absurd h1 (by decide)

/-- C2: the Aggregator routes a scored article into the bucket of its
winning country exactly when the country is not `none` and the confidence
is strictly above 0.1; at confidence exactly 0.1, or below, or with no
country, it goes to the "Unidentified" bucket. -/
theorem aggregator_threshold_routing (a : ArticleIn) (k : String) (q : ℚ) :
    (identifyA a = (some k, q) → q > 1/10 →
        organize_by_countries [a] = [(k, [a])])
  ∧ (identifyA a = (some k, q) → q ≤ 1/10 →
        organize_by_countries [a] = [("Unidentified", [a])])
  ∧ (identifyA a = (none, q) →
        organize_by_countries [a] = [("Unidentified", [a])]) := by
  refine ⟨?_, ?_, ?_⟩
  · intro h hq
    have h1 : (identifyA a).1 = some k := by rw [h]
    have h2 : (identifyA a).2 = q := by rw [h]
    have hne : k ≠ "" := identifyA_ne_empty a k h1
    have hstep : organizeStep ([], []) a = ([(k, [a])], []) := by
      unfold organizeStep
      rw [h1]
      simp only [h2]
      rw [if_pos ⟨hne, hq⟩]
      simp [dictGet, dictSet]
    unfold organize_by_countries
    simp [hstep]
  · intro h hq
    have h1 : (identifyA a).1 = some k := by rw [h]
    have h2 : (identifyA a).2 = q := by rw [h]
    have hstep : organizeStep ([], []) a = ([], [a]) := by
      unfold organizeStep
      rw [h1]
      simp only [h2]
      rw [if_neg (fun hc => absurd hq (not_le.mpr hc.2))]
      simp
    unfold organize_by_countries
    simp [hstep]
  · intro h
    have h1 : (identifyA a).1 = none := by rw [h]
    have hstep : organizeStep ([], []) a = ([], [a]) := by
      unfold organizeStep
      rw [h1]
      simp
    unfold organize_by_countries
    simp [hstep]

/-- Witness for C2 at the exact threshold boundary: an Asia article whose
only signal is the +5 extract containment of "Oman" inside "omanian"
scores confidence exactly 0.1 and is routed to "Unidentified". -/
theorem aggregator_threshold_routing_witness :
    identifyA ⟨"Thing", "omanian artifact", [], "Asia"⟩ = (some "Oman", 1/10)
      ∧ (1 : ℚ)/10 ≤ 1/10
      ∧ organize_by_countries [⟨"Thing", "omanian artifact", [], "Asia"⟩]
          = [("Unidentified", [⟨"Thing", "omanian artifact", [], "Asia"⟩])] := by
  have hd : countryScoresFinal "Thing" "omanian artifact" [] "Asia"
      = [("Oman", 5)] := by decide
  have h1 : identifyA ⟨"Thing", "omanian artifact", [], "Asia"⟩
      = (some "Oman", 1/10) := by
    show identify_country_from_context "Thing" "omanian artifact" [] "Asia" = _
    rw [identify_country_from_context, hd]
    norm_num [dictArgmax]
  exact ⟨h1, le_refl _,
    (aggregator_threshold_routing ⟨"Thing", "omanian artifact", [], "Asia"⟩
      "Oman" (1/10)).2.1 h1 (le_refl _)⟩

/-! ### Claim C6 — zero-signal behaviour -/

/-- Every substring whose presence in the analysis text can make a
special-location rule fire. -/
def specialTriggerStrings : List String :=
  ["hong kong", "macau", "macao", "taiwan", "republic of china",
   "mainland china", "people's republic",
   "england", "english", "london",
   "scotland", "scottish", "edinburgh",
   "wales", "welsh", "cardiff",
   "northern ireland",
   "united states", " usa ", " us ", "american",
   "canada", "canadian"]

theorem wbCountAux_zero (pat : List Char) : ∀ (prev : Bool) (t : List Char),
    occursIn pat t = false → wbCountAux pat prev t = 0 := by
  intro prev t
  induction t generalizing prev with
  | nil => intro _; rfl
  | cons c t ih =>
    intro h
    have h2 : pat.isPrefixOf (c :: t) = false ∧ occursIn pat t = false := by
      have := h
      unfold occursIn at this
      exact Bool.or_eq_false_iff.mp this
    unfold wbCountAux
    rw [h2.1]
    simp only [Bool.and_false, Bool.false_and, Bool.false_eq_true, if_false,
      Nat.zero_add]
    exact ih _ h2.2

theorem fullTextOf_empty (t : String) :
    fullTextOf t "" [] = lc t ++ [' ', ' '] := by
  unfold fullTextOf lc
  have h1 : (t ++ " " ++ "" ++ " " ++ String.intercalate " " ([] : List String)).data
      = t.data ++ [' ', ' '] := by
    simp only [String.data_append]
    have h2 : (" ".intercalate ([] : List String)).data = [] := rfl
    rw [h2]
    simp [List.append_assoc]
  rw [h1, List.map_append]
  rfl

theorem countryScore_zero (title : String) (c : String)
    (h : occursIn (lc c) (fullTextOf title "" []) = false) :
    countryScore (fullTextOf title "" []) title "" [] c = 0 := by
  have hne : lc c ≠ [] := by
    intro he
    have htrue : occursIn (lc c) (fullTextOf title "" []) = true := by
      rw [he, occursIn_iff]
      exact List.nil_infix
    rw [htrue] at h
    exact Bool.noConfusion h
  have ht : occursIn (lc c) (lc title) = false := by
    cases hcase : occursIn (lc c) (lc title) with
    | false => rfl
    | true =>
      have h2 : lc c <:+: lc title := (occursIn_iff _ _).mp hcase
      have h3 : lc c <:+: fullTextOf title "" [] := by
        rw [fullTextOf_empty]
        exact h2.trans (List.prefix_append _ _).isInfix
      rw [(occursIn_iff _ _).mpr h3] at h
      exact Bool.noConfusion h
  have he : occursIn (lc c) (lc "") = false := by
    show occursIn (lc c) [] = false
    unfold occursIn
    simpa [List.isEmpty_iff] using hne
  have hexp : countryScore (fullTextOf title "" []) title "" [] c
      = 10 * wordBoundaryCount (lc c) (fullTextOf title "" [])
        + List.foldl (fun acc cat => acc + catBonus (lc c) (lc cat)) 0 []
        + (if occursIn (lc c) (lc title) = true then 15 else 0)
        + (if occursIn (lc c) (lc "") = true then 5 else 0) := rfl
  rw [hexp, show wordBoundaryCount (lc c) (fullTextOf title "" []) = 0 from
    wbCountAux_zero _ _ _ h, ht, he]
  simp

theorem genericScores_nil (ft : List Char) (t e : String) (cats : List String) :
    ∀ rc : List String, (∀ c ∈ rc, countryScore ft t e cats c = 0) →
    genericScores ft t e cats rc = [] := by
  intro rc
  induction rc with
  | nil => intro _; rfl
  | cons c rc ih =>
    intro h
    unfold genericScores
    simp only [List.foldl_cons]
    have hc : countryScore ft t e cats c = 0 := h c (List.mem_cons_self _ _)
    rw [show (if countryScore ft t e cats c > 0
        then dictSet ([] : List (String × ℕ)) c (countryScore ft t e cats c)
        else ([] : List (String × ℕ))) = [] by rw [hc]; simp]
    exact ih (fun c' hc' => h c' (List.mem_cons_of_mem _ hc'))

theorem synonymPass_nil (ft : List Char) (rc : List String)
    (h : ∀ p ∈ countrySynonyms, occursIn (lc p.1) ft = false) :
    synonymPass ft rc [] = [] := by
  unfold synonymPass
  have inv : ∀ syns : List (String × String),
      (∀ p ∈ syns, occursIn (lc p.1) ft = false) →
      syns.foldl (fun d p =>
        if rc.contains p.2 && occursIn (lc p.1) ft
        then dictAdd d p.2 8 else d) [] = [] := by
    intro syns
    induction syns with
    | nil => intro _; rfl
    | cons p syns ih =>
      intro hs
      simp only [List.foldl_cons]
      rw [show (if rc.contains p.2 && occursIn (lc p.1) ft
          then dictAdd ([] : List (String × ℕ)) p.2 8
          else ([] : List (String × ℕ))) = [] by
        rw [hs p (List.mem_cons_self _ _)]; simp]
      exact ih (fun p' hp' => hs p' (List.mem_cons_of_mem _ hp'))
  exact inv countrySynonyms h

theorem applySpecial_no_triggers (ft : List Char) (r : String)
    (h : ∀ s ∈ specialTriggerStrings, occursIn s.data ft = false) :
    applySpecialLocationRules ft [] r = [] := by
  have t01 := h "hong kong" (by decide)
  have t02 := h "macau" (by decide)
  have t03 := h "macao" (by decide)
  have t04 := h "taiwan" (by decide)
  have t05 := h "republic of china" (by decide)
  have t06 := h "mainland china" (by decide)
  have t07 := h "people's republic" (by decide)
  have t08 := h "england" (by decide)
  have t09 := h "english" (by decide)
  have t10 := h "london" (by decide)
  have t11 := h "scotland" (by decide)
  have t12 := h "scottish" (by decide)
  have t13 := h "edinburgh" (by decide)
  have t14 := h "wales" (by decide)
  have t15 := h "welsh" (by decide)
  have t16 := h "cardiff" (by decide)
  have t17 := h "northern ireland" (by decide)
  have t18 := h "united states" (by decide)
  have t19 := h " usa " (by decide)
  have t20 := h " us " (by decide)
  have t21 := h "american" (by decide)
  have t22 := h "canada" (by decide)
  have t23 := h "canadian" (by decide)
  unfold applySpecialLocationRules
  by_cases hr : r = "North America" <;>
    simp [hr, t01, t02, t03, t04, t05, t06, t07, t08, t09, t10, t11, t12,
      t13, t14, t15, t16, t17, t18, t19, t20, t21, t22, t23]

/-- C6, amended: the scorer never raises with empty extract and categories
and returns exactly `(none, 0.0)` whenever no signal fires — but "title
containing no candidate country name" is not sufficient for that: the
precise condition is that the analysis text triggers no generic, synonym
or special-location signal.  (A title such as "Edinburgh Castle" contains
no candidate country name yet resolves to United Kingdom through the
special rules — see the counterexample.) -/
theorem zero_signal_amended (title region : String)
    (h0 : ∀ c ∈ regionCountries region,
        occursIn (lc c) (fullTextOf title "" []) = false)
    (hsyn : ∀ p ∈ countrySynonyms,
        occursIn (lc p.1) (fullTextOf title "" []) = false)
    (hsp : ∀ s ∈ specialTriggerStrings,
        occursIn s.data (fullTextOf title "" []) = false) :
    identify_country_from_context title "" [] region = (none, 0) := by
  have hgen : genericScores (fullTextOf title "" []) title "" []
      (regionCountries region) = [] :=
    genericScores_nil _ _ _ _ _ (fun c hc => countryScore_zero title c (h0 c hc))
  have hfinal : countryScoresFinal title "" [] region = [] := by
    have hexp : countryScoresFinal title "" [] region
        = applySpecialLocationRules (fullTextOf title "" [])
            (synonymPass (fullTextOf title "" []) (regionCountries region)
              (genericScores (fullTextOf title "" []) title "" []
                (regionCountries region)))
            region := rfl
    rw [hexp, hgen, synonymPass_nil _ _ hsyn, applySpecial_no_triggers _ _ hsp]
  unfold identify_country_from_context
  rw [hfinal]
  rfl

/-- Witness for the amended C6 theorem: a title firing no signal at all
yields exactly `(none, 0.0)`. -/
theorem zero_signal_amended_witness :
    identify_country_from_context "Floating Stone Garden" "" [] "Asia"
      = (none, 0) :=
  zero_signal_amended "Floating Stone Garden" "Asia"
    (by decide) (by decide) (by decide)

/-- C6, counterexample: the claim's final part — "an input with empty
extract, empty categories, and a title containing no candidate country
name yields `(none, 0.0)`" — is false on the code: "Edinburgh Castle"
contains no Europe candidate name as a substring, yet the special-location
rules award United Kingdom 30 points and the scorer returns
`(United Kingdom, 0.6)`. -/
theorem zero_signal_counterexample :
    (∀ c ∈ regionCountries "Europe",
        occursIn (lc c) (lc "Edinburgh Castle") = false)
      ∧ identify_country_from_context "Edinburgh Castle" "" [] "Europe"
          = (some "United Kingdom", 3/5) := by
  constructor
  · decide
  · have hd : countryScoresFinal "Edinburgh Castle" "" [] "Europe"
        = [("United Kingdom", 30)] := by decide
    rw [identify_country_from_context, hd]
    norm_num [dictArgmax]

/-! ### Claim C10 — the confidence gap invariant -/

theorem dvd5_catBonus (cl catl : List Char) : 5 ∣ catBonus cl catl := by
  unfold catBonus
  split_ifs <;> decide

theorem dvd5_catFold (cl : List Char) :
    ∀ (cats : List String) (acc : ℕ), 5 ∣ acc →
      5 ∣ cats.foldl (fun acc cat => acc + catBonus cl (lc cat)) acc := by
  intro cats
  induction cats with
  | nil => intro acc h; exact h
  | cons cat cats ih =>
    intro acc h
    simp only [List.foldl_cons]
    exact ih _ (Nat.dvd_add h (dvd5_catBonus cl (lc cat)))

theorem dvd5_countryScore (ft : List Char) (t e : String) (cats : List String)
    (c : String) : 5 ∣ countryScore ft t e cats c := by
  have hexp : countryScore ft t e cats c
      = 10 * wordBoundaryCount (lc c) ft
        + cats.foldl (fun acc cat => acc + catBonus (lc c) (lc cat)) 0
        + (if occursIn (lc c) (lc t) = true then 15 else 0)
        + (if occursIn (lc c) (lc e) = true then 5 else 0) := rfl
  rw [hexp]
  refine Nat.dvd_add (Nat.dvd_add (Nat.dvd_add ?_ ?_) ?_) ?_
  · exact Dvd.dvd.mul_right (by norm_num) _
  · exact dvd5_catFold _ cats 0 (dvd_zero 5)
  · split_ifs <;> decide
  · split_ifs <;> decide

theorem vals_genericScores (ft : List Char) (t e : String) (cats : List String) :
    ∀ (rc : List String) (d : List (String × ℕ)), (∀ p ∈ d, 5 ≤ p.2) →
      ∀ p ∈ rc.foldl (fun d country =>
        let s := countryScore ft t e cats country
        if s > 0 then dictSet d country s else d) d, 5 ≤ p.2 := by
  intro rc
  induction rc with
  | nil => intro d hd p hp; exact hd p hp
  | cons c rc ih =>
    intro d hd p hp
    simp only [List.foldl_cons] at hp
    refine ih _ ?_ p hp
    intro q hq
    by_cases hs : countryScore ft t e cats c > 0
    · simp only [hs, if_true] at hq
      rcases mem_dictSet _ _ _ _ hq with h | h
      · exact hd q h
      · rw [h]
        exact Nat.le_of_dvd hs (dvd5_countryScore ft t e cats c)
    · simp only [hs, if_false] at hq
      exact hd q hq

theorem vals_synonymPass (ft : List Char) (rc : List String) :
    ∀ (syns : List (String × String)) (d : List (String × ℕ)),
      (∀ p ∈ d, 5 ≤ p.2) →
      ∀ p ∈ syns.foldl (fun d p =>
        if rc.contains p.2 && occursIn (lc p.1) ft
        then dictAdd d p.2 8 else d) d, 5 ≤ p.2 := by
  intro syns
  induction syns with
  | nil => intro d hd p hp; exact hd p hp
  | cons s syns ih =>
    intro d hd p hp
    simp only [List.foldl_cons] at hp
    refine ih _ ?_ p hp
    intro q hq
    by_cases hc : rc.contains s.2 && occursIn (lc s.1) ft
    · rw [if_pos hc] at hq
      rcases mem_dictAdd _ _ _ _ hq with h | h
      · exact hd q h
      · rw [h]; simp
    · rw [if_neg hc] at hq
      exact hd q hq

theorem vals_condAdd (c : Bool) (d : List (String × ℕ)) (k : String) (v : ℕ)
    (hv : 5 ≤ v) (hd : ∀ p ∈ d, 5 ≤ p.2) :
    ∀ p ∈ (if c then dictAdd d k v else d), 5 ≤ p.2 := by
  cases c
  · simpa using hd
  · simp only [if_true]
    intro p hp
    rcases mem_dictAdd _ _ _ _ hp with h | h
    · exact hd p h
    · rw [h]; simp; omega

theorem vals_condAdd2 (c₁ c₂ : Bool) (d : List (String × ℕ))
    (k₁ k₂ : String) (v₁ v₂ : ℕ) (hv₁ : 5 ≤ v₁) (hv₂ : 5 ≤ v₂)
    (hd : ∀ p ∈ d, 5 ≤ p.2) :
    ∀ p ∈ (if c₁ then dictAdd d k₁ v₁
        else if c₂ then dictAdd d k₂ v₂ else d), 5 ≤ p.2 := by
  cases c₁
  · simp only [Bool.false_eq_true, if_false]
    exact vals_condAdd c₂ d k₂ v₂ hv₂ hd
  · simp only [if_true]
    intro p hp
    rcases mem_dictAdd _ _ _ _ hp with h | h
    · exact hd p h
    · rw [h]; simp; omega

theorem vals_applySpecialLocationRules (ft : List Char)
    (d : List (String × ℕ)) (r : String) (hd : ∀ p ∈ d, 5 ≤ p.2) :
    ∀ p ∈ applySpecialLocationRules ft d r, 5 ≤ p.2 := by
  unfold applySpecialLocationRules
  simp only []
  by_cases hr : r = "North America"
  · rw [if_pos hr]
    refine vals_condAdd2 _ _ _ _ _ _ _ (by norm_num) (by norm_num) ?_
    refine vals_condAdd _ _ _ _ (by norm_num) ?_
    refine vals_condAdd _ _ _ _ (by norm_num) ?_
    refine vals_condAdd _ _ _ _ (by norm_num) ?_
    refine vals_condAdd _ _ _ _ (by norm_num) ?_
    refine vals_condAdd2 _ _ _ _ _ _ _ (by norm_num) (by norm_num) ?_
    refine vals_condAdd _ _ _ _ (by norm_num) ?_
    exact vals_condAdd _ _ _ _ (by norm_num) hd
  · rw [if_neg hr]
    refine vals_condAdd _ _ _ _ (by norm_num) ?_
    refine vals_condAdd _ _ _ _ (by norm_num) ?_
    refine vals_condAdd _ _ _ _ (by norm_num) ?_
    refine vals_condAdd _ _ _ _ (by norm_num) ?_
    refine vals_condAdd2 _ _ _ _ _ _ _ (by norm_num) (by norm_num) ?_
    refine vals_condAdd _ _ _ _ (by norm_num) ?_
    exact vals_condAdd _ _ _ _ (by norm_num) hd

theorem vals_countryScoresFinal (t e : String) (cats : List String)
    (r : String) : ∀ p ∈ countryScoresFinal t e cats r, 5 ≤ p.2 := by
  have hexp : countryScoresFinal t e cats r
      = applySpecialLocationRules (fullTextOf t e cats)
          (synonymPass (fullTextOf t e cats) (regionCountries r)
            (genericScores (fullTextOf t e cats) t e cats (regionCountries r)))
          r := rfl
  rw [hexp]
  refine vals_applySpecialLocationRules _ _ _ ?_
  refine vals_synonymPass _ _ countrySynonyms _ ?_
  refine vals_genericScores _ _ _ _ _ [] ?_
  intro p hp
  exact absurd hp (List.not_mem_nil p)

/-- C10: every attribution result is either exactly `(none, 0.0)` or a
country with confidence in `[0.1, 1.0]`; since every contributing signal
adds at least 5 points and the confidence is `min(best/50, 1)`, no
returned confidence lies strictly between 0 and 0.1. -/
theorem confidence_gap (t e : String) (cats : List String) (r : String) :
    identify_country_from_context t e cats r = (none, 0)
      ∨ ∃ k, (identify_country_from_context t e cats r).1 = some k
          ∧ 1/10 ≤ (identify_country_from_context t e cats r).2
          ∧ (identify_country_from_context t e cats r).2 ≤ 1 := by
  cases harg : dictArgmax (countryScoresFinal t e cats r) with
  | none =>
    left
    unfold identify_country_from_context
    rw [harg]
  | some p =>
    right
    have hmem := dictArgmax_mem _ _ harg
    have h5 : 5 ≤ p.2 := vals_countryScoresFinal t e cats r p hmem
    have hval : identify_country_from_context t e cats r
        = (some p.1, min ((p.2 : ℚ) / 50) 1) := by
      unfold identify_country_from_context
      rw [harg]
    rw [hval]
    refine ⟨p.1, rfl, ?_, min_le_right _ _⟩
    show (1 : ℚ)/10 ≤ min ((p.2 : ℚ) / 50) 1
    apply le_min
    · have h5q : (5 : ℚ) ≤ (p.2 : ℚ) := by exact_mod_cast h5
      linarith
    · norm_num

/-! ### Claim C9 — determinism and article independence -/

theorem dictGet_of_not_mem_keys {α : Type} (d : List (String × α)) (k : String)
    (dflt : α) (h : k ∉ dictKeys d) : dictGet d k dflt = dflt := by
  induction d with
  | nil => rfl
  | cons p d ih =>
    have hne : ¬ p.1 = k := by
      intro e
      exact h (by simp [dictKeys, e])
    have hd : k ∉ dictKeys d := fun hm => h (by simp [dictKeys] at hm ⊢; tauto)
    simp [dictGet, hne, ih hd]

theorem unidentified_not_mem_regionCountries (r : String) :
    "Unidentified" ∉ regionCountries r := by
  unfold regionCountries
  split_ifs <;> decide

theorem identifyA_ne_unidentified (a : ArticleIn) :
    (identifyA a).1 ≠ some "Unidentified" := by
  intro h
  rcases identify_mem_of_some a.title a.extract a.categories a.region _ h with h1 | h1
  · exact unidentified_not_mem_regionCountries a.region h1
  · exact absurd h1 (by decide)

theorem organize_fold_spec :
    ∀ (xs : List ArticleIn) (b : List (String × List ArticleIn))
      (u : List ArticleIn),
      (∀ a ∈ xs, (identifyA a).1 ≠ some "Unidentified") →
      (∀ k, k ≠ "Unidentified" →
        dictGet (xs.foldl organizeStep (b, u)).1 k []
          = dictGet b k [] ++ xs.filter (fun a => routeName a == k))
      ∧ ((xs.foldl organizeStep (b, u)).2
          = u ++ xs.filter (fun a => routeName a == "Unidentified"))
      ∧ ("Unidentified" ∉ dictKeys b →
          "Unidentified" ∉ dictKeys (xs.foldl organizeStep (b, u)).1) := by
  intro xs
  induction xs with
  | nil =>
    intro b u _
    refine ⟨fun k _ => ?_, ?_, fun h => h⟩ <;> simp
  | cons a xs ih =>
    intro b u h
    have ha := h a (List.mem_cons_self _ _)
    have hxs := fun a' ha' => h a' (List.mem_cons_of_mem _ ha')
    simp only [List.foldl_cons]
    cases hio : (identifyA a).1 with
    | some k₀ =>
      have hk₀ : k₀ ≠ "Unidentified" := fun e => ha (by rw [hio, e])
      by_cases hcond : k₀ ≠ "" ∧ (identifyA a).2 > 1/10
      · have hroute : routeName a = k₀ := by
          unfold routeName
          rw [hio]
          exact if_pos hcond
        have hstep : organizeStep (b, u) a
            = (dictSet b k₀ (dictGet b k₀ [] ++ [a]), u) := by
          unfold organizeStep
          rw [hio]
          exact if_pos hcond
        rw [hstep]
        obtain ⟨ih1, ih2, ih3⟩ :=
          ih (dictSet b k₀ (dictGet b k₀ [] ++ [a])) u hxs
        refine ⟨?_, ?_, ?_⟩
        · intro k hk
          rw [ih1 k hk]
          by_cases hkk : k = k₀
          · subst hkk
            rw [dictGet_dictSet_self]
            have : (fun a => routeName a == k) a = true := by
              simp [hroute]
            simp only [List.filter_cons, this, if_true]
            simp [List.append_assoc]
          · rw [dictGet_dictSet_ne _ _ _ _ _ (fun e => hkk e.symm)]
            have : (fun a' => routeName a' == k) a = false := by
              simp [hroute]
              exact fun e => hkk e.symm
            simp only [List.filter_cons, this, Bool.false_eq_true, if_false]
        · rw [ih2]
          have : (fun a' => routeName a' == "Unidentified") a = false := by
            simp [hroute]
            exact hk₀
          simp only [List.filter_cons, this, Bool.false_eq_true, if_false]
        · intro hb
          refine ih3 ?_
          intro hm
          rcases dictKeys_dictSet _ _ _ _ hm with h1 | h1
          · exact hb h1
          · exact hk₀ h1.symm
      · have hroute : routeName a = "Unidentified" := by
          unfold routeName
          rw [hio]
          exact if_neg hcond
        have hstep : organizeStep (b, u) a = (b, u ++ [a]) := by
          unfold organizeStep
          rw [hio]
          exact if_neg hcond
        rw [hstep]
        obtain ⟨ih1, ih2, ih3⟩ := ih b (u ++ [a]) hxs
        refine ⟨?_, ?_, ih3⟩
        · intro k hk
          rw [ih1 k hk]
          have : (fun a' => routeName a' == k) a = false := by
            simp [hroute]
            exact fun e => hk e.symm
          simp only [List.filter_cons, this, Bool.false_eq_true, if_false]
        · rw [ih2]
          have : (fun a' => routeName a' == "Unidentified") a = true := by
            simp [hroute]
          simp only [List.filter_cons, this, if_true]
          simp [List.append_assoc]
    | none =>
      have hroute : routeName a = "Unidentified" := by
        unfold routeName
        rw [hio]
      have hstep : organizeStep (b, u) a = (b, u ++ [a]) := by
        unfold organizeStep
        rw [hio]
      rw [hstep]
      obtain ⟨ih1, ih2, ih3⟩ := ih b (u ++ [a]) hxs
      refine ⟨?_, ?_, ih3⟩
      · intro k hk
        rw [ih1 k hk]
        have : (fun a' => routeName a' == k) a = false := by
          simp [hroute]
          exact fun e => hk e.symm
        simp only [List.filter_cons, this, Bool.false_eq_true, if_false]
      · rw [ih2]
        have : (fun a' => routeName a' == "Unidentified") a = true := by
          simp [hroute]
        simp only [List.filter_cons, this, if_true]
        simp [List.append_assoc]

/-- C9: the engine is deterministic and article-independent.  In this
embedding every operation (`identify_country_from_context`,
`parse_geographic_sections`, `organize_by_countries`) is a pure function
of its explicit inputs and the immutable Gazetteer — two invocations on
identical inputs are definitionally equal — and this theorem captures the
substantive content of the claim: in a whole aggregation run, the bucket
each article lands in is a function of that article alone (`routeName`),
so every bucket of `organize_by_countries` is exactly the arrival-ordered
filter of the input stream by each article's own attribution, and scoring
one article can neither depend on nor mutate the result of another. -/
theorem attribution_deterministic_and_independent (xs : List ArticleIn)
    (k : String) :
    dictGet (organize_by_countries xs) k []
      = xs.filter (fun a => routeName a == k) := by
  obtain ⟨h1, h2, h3⟩ :=
    organize_fold_spec xs [] [] (fun a _ => identifyA_ne_unidentified a)
  have hnk : "Unidentified" ∉ dictKeys (xs.foldl organizeStep ([], [])).1 :=
    h3 (by simp [dictKeys])
  unfold organize_by_countries
  simp only []
  by_cases hu : (xs.foldl organizeStep ([], [])).2 = []
  · rw [if_pos hu]
    by_cases hk : k = "Unidentified"
    · subst hk
      rw [dictGet_of_not_mem_keys _ _ _ hnk]
      have hfil := h2
      rw [hu] at hfil
      simp only [List.nil_append] at hfil
      exact hfil
    · rw [h1 k hk]
      simp [dictGet]
  · rw [if_neg hu]
    rw [dictGet_append]
    by_cases hk : k = "Unidentified"
    · subst hk
      rw [if_neg hnk]
      have : dictGet [("Unidentified", (xs.foldl organizeStep ([], [])).2)]
          "Unidentified" ([] : List ArticleIn)
          = (xs.foldl organizeStep ([], [])).2 := by
        simp [dictGet]
      rw [this, h2]
      simp
    · by_cases hmem : k ∈ dictKeys (xs.foldl organizeStep ([], [])).1
      · rw [if_pos hmem, h1 k hk]
        simp [dictGet]
      · rw [if_neg hmem]
        have hget : dictGet [("Unidentified", (xs.foldl organizeStep ([], [])).2)]
            k ([] : List ArticleIn) = [] := by
          have hne : ¬ "Unidentified" = k := fun e => hk e.symm
          simp [dictGet, hne]
        have hf := h1 k hk
        rw [dictGet_of_not_mem_keys _ _ _ hmem] at hf
        have hf2 : List.filter (fun a => routeName a == k) xs = [] := by
          have hz : dictGet ([] : List (String × List ArticleIn)) k [] = [] := rfl
          rw [hz, List.nil_append] at hf
          exact hf.symm
        rw [hget, hf2]

/-! ### Claim C4 — confidence monotonicity

`specialBonus` is the closed form of what the special-location pass adds
to one fixed country `k`: it mirrors the conditional structure of
`applySpecialLocationRules` exactly and is related to it by
`dictGet_applySpecial`. -/

/-- What `_apply_special_location_rules` adds to country `k`'s score. -/
def specialBonus (ft : List Char) (region k : String) : ℕ :=
  (if occursIn "hong kong".data ft
   then (if ("Hong Kong" : String) = k then 50 else 0) else 0)
  + (if occursIn "macau".data ft || occursIn "macao".data ft
     then (if ("Macau" : String) = k then 50 else 0) else 0)
  + (if occursIn "taiwan".data ft || occursIn "republic of china".data ft
     then (if ("Taiwan" : String) = k then 40 else 0)
     else if occursIn "mainland china".data ft
             || occursIn "people's republic".data ft
          then (if ("China" : String) = k then 40 else 0) else 0)
  + (if ["england", "english", "london"].any (fun s => occursIn s.data ft)
     then (if ("United Kingdom" : String) = k then 30 else 0) else 0)
  + (if ["scotland", "scottish", "edinburgh"].any (fun s => occursIn s.data ft)
     then (if ("United Kingdom" : String) = k then 30 else 0) else 0)
  + (if ["wales", "welsh", "cardiff"].any (fun s => occursIn s.data ft)
     then (if ("United Kingdom" : String) = k then 30 else 0) else 0)
  + (if occursIn "northern ireland".data ft
     then (if ("United Kingdom" : String) = k then 30 else 0) else 0)
  + (if region = "North America" then
       (if ["united states", " usa ", " us ", "american"].any
            (fun s => occursIn s.data ft)
        then (if ("United States" : String) = k then 25 else 0)
        else if ["canada", "canadian"].any (fun s => occursIn s.data ft)
             then (if ("Canada" : String) = k then 25 else 0) else 0)
     else 0)

theorem dictGet_condAdd (c : Bool) (d : List (String × ℕ)) (k' k : String)
    (v : ℕ) :
    dictGet (if c then dictAdd d k' v else d) k 0
      = dictGet d k 0 + (if c then (if k' = k then v else 0) else 0) := by
  cases c
  · simp
  · simp [dictGet_dictAdd]

theorem dictGet_condAdd2 (c₁ c₂ : Bool) (d : List (String × ℕ))
    (k₁ k₂ k : String) (v₁ v₂ : ℕ) :
    dictGet (if c₁ then dictAdd d k₁ v₁
        else if c₂ then dictAdd d k₂ v₂ else d) k 0
      = dictGet d k 0
        + (if c₁ then (if k₁ = k then v₁ else 0)
           else if c₂ then (if k₂ = k then v₂ else 0) else 0) := by
  cases c₁
  · simp only [Bool.false_eq_true, if_false]
    exact dictGet_condAdd c₂ d k₂ k v₂
  · simp [dictGet_dictAdd]

theorem dictGet_applySpecial (ft : List Char) (d : List (String × ℕ))
    (r k : String) :
    dictGet (applySpecialLocationRules ft d r) k 0
      = dictGet d k 0 + specialBonus ft r k := by
  unfold applySpecialLocationRules specialBonus
  simp only []
  by_cases hr : r = "North America"
  · rw [if_pos hr, if_pos hr]
    simp only [dictGet_condAdd2, dictGet_condAdd]
    omega
  · rw [if_neg hr, if_neg hr]
    simp only [dictGet_condAdd2, dictGet_condAdd]
    omega

theorem dictGet_le_dictAdd (d : List (String × ℕ)) (k' k : String) (v : ℕ) :
    dictGet d k 0 ≤ dictGet (dictAdd d k' v) k 0 := by
  rw [dictGet_dictAdd]
  exact Nat.le_add_right _ _

theorem genericScores_mono (ft1 ft2 : List Char) (t1 e1 t2 e2 : String)
    (cats : List String) (k : String)
    (hscore : countryScore ft1 t1 e1 cats k ≤ countryScore ft2 t2 e2 cats k) :
    ∀ (rc : List String) (d1 d2 : List (String × ℕ)),
      dictGet d1 k 0 ≤ dictGet d2 k 0 →
      dictGet d1 k 0 ≤ countryScore ft1 t1 e1 cats k →
      dictGet (rc.foldl (fun d country =>
          let s := countryScore ft1 t1 e1 cats country
          if s > 0 then dictSet d country s else d) d1) k 0
        ≤ dictGet (rc.foldl (fun d country =>
          let s := countryScore ft2 t2 e2 cats country
          if s > 0 then dictSet d country s else d) d2) k 0
      ∧ dictGet (rc.foldl (fun d country =>
          let s := countryScore ft1 t1 e1 cats country
          if s > 0 then dictSet d country s else d) d1) k 0
          ≤ countryScore ft1 t1 e1 cats k := by
  intro rc
  induction rc with
  | nil => intro d1 d2 hle hbound; exact ⟨hle, hbound⟩
  | cons c rc ih =>
    intro d1 d2 hle hbound
    simp only [List.foldl_cons]
    refine ih _ _ ?_ ?_
    · by_cases hck : c = k
      · subst hck
        by_cases h1 : countryScore ft1 t1 e1 cats c > 0
        · have h2 : countryScore ft2 t2 e2 cats c > 0 := lt_of_lt_of_le h1 hscore
          simp only [h1, h2, if_true, dictGet_dictSet_self]
          exact hscore
        · simp only [h1, if_false]
          by_cases h2 : countryScore ft2 t2 e2 cats c > 0
          · simp only [h2, if_true, dictGet_dictSet_self]
            exact le_trans hbound hscore
          · simp only [h2, if_false]
            exact hle
      · have hget1 : ∀ (d : List (String × ℕ)),
            dictGet (if countryScore ft1 t1 e1 cats c > 0
              then dictSet d c (countryScore ft1 t1 e1 cats c) else d) k 0
              = dictGet d k 0 := by
          intro d
          by_cases h1 : countryScore ft1 t1 e1 cats c > 0
          · rw [if_pos h1, dictGet_dictSet_ne _ _ _ _ _ hck]
          · rw [if_neg h1]
        have hget2 : ∀ (d : List (String × ℕ)),
            dictGet (if countryScore ft2 t2 e2 cats c > 0
              then dictSet d c (countryScore ft2 t2 e2 cats c) else d) k 0
              = dictGet d k 0 := by
          intro d
          by_cases h2 : countryScore ft2 t2 e2 cats c > 0
          · rw [if_pos h2, dictGet_dictSet_ne _ _ _ _ _ hck]
          · rw [if_neg h2]
        simp only [hget1, hget2]
        exact hle
    · by_cases hck : c = k
      · subst hck
        by_cases h1 : countryScore ft1 t1 e1 cats c > 0
        · simp only [h1, if_true, dictGet_dictSet_self]
          exact le_refl _
        · simp only [h1, if_false]
          exact hbound
      · by_cases h1 : countryScore ft1 t1 e1 cats c > 0
        · simp only [h1, if_true, dictGet_dictSet_ne _ _ _ _ _ hck]
          exact hbound
        · simp only [h1, if_false]
          exact hbound

theorem synonymPass_mono (ft1 ft2 : List Char) (rc : List String) (k : String) :
    ∀ (syns : List (String × String)),
      (∀ p ∈ syns, occursIn (lc p.1) ft1 = true → occursIn (lc p.1) ft2 = true) →
      ∀ (d1 d2 : List (String × ℕ)), dictGet d1 k 0 ≤ dictGet d2 k 0 →
      dictGet (syns.foldl (fun d p =>
          if rc.contains p.2 && occursIn (lc p.1) ft1
          then dictAdd d p.2 8 else d) d1) k 0
        ≤ dictGet (syns.foldl (fun d p =>
          if rc.contains p.2 && occursIn (lc p.1) ft2
          then dictAdd d p.2 8 else d) d2) k 0 := by
  intro syns
  induction syns with
  | nil => intro _ d1 d2 hle; exact hle
  | cons p syns ih =>
    intro hinf d1 d2 hle
    simp only [List.foldl_cons]
    refine ih (fun p' hp' => hinf p' (List.mem_cons_of_mem _ hp')) _ _ ?_
    by_cases hc1 : rc.contains p.2 && occursIn (lc p.1) ft1
    · have hc2 : (rc.contains p.2 && occursIn (lc p.1) ft2) = true := by
        rcases (Bool.and_eq_true _ _).mp hc1 with ⟨ha, hb⟩
        rw [Bool.and_eq_true]
        exact ⟨ha, hinf p (List.mem_cons_self _ _) hb⟩
      rw [if_pos hc1, if_pos hc2, dictGet_dictAdd, dictGet_dictAdd]
      exact Nat.add_le_add_right hle _
    · rw [if_neg hc1]
      by_cases hc2 : rc.contains p.2 && occursIn (lc p.1) ft2
      · rw [if_pos hc2]
        exact le_trans hle (dictGet_le_dictAdd _ _ _ _)
      · rw [if_neg hc2]
        exact hle

theorem countryScore_mono (ft1 ft2 : List Char) (t1 e1 t2 e2 : String)
    (cats : List String) (k : String)
    (hm : wordBoundaryCount (lc k) ft1 ≤ wordBoundaryCount (lc k) ft2)
    (ht : occursIn (lc k) (lc t1) = true → occursIn (lc k) (lc t2) = true)
    (he : occursIn (lc k) (lc e1) = true → occursIn (lc k) (lc e2) = true) :
    countryScore ft1 t1 e1 cats k ≤ countryScore ft2 t2 e2 cats k := by
  have hexp1 : countryScore ft1 t1 e1 cats k
      = 10 * wordBoundaryCount (lc k) ft1
        + cats.foldl (fun acc cat => acc + catBonus (lc k) (lc cat)) 0
        + (if occursIn (lc k) (lc t1) = true then 15 else 0)
        + (if occursIn (lc k) (lc e1) = true then 5 else 0) := rfl
  have hexp2 : countryScore ft2 t2 e2 cats k
      = 10 * wordBoundaryCount (lc k) ft2
        + cats.foldl (fun acc cat => acc + catBonus (lc k) (lc cat)) 0
        + (if occursIn (lc k) (lc t2) = true then 15 else 0)
        + (if occursIn (lc k) (lc e2) = true then 5 else 0) := rfl
  rw [hexp1, hexp2]
  have h15 : (if occursIn (lc k) (lc t1) = true then 15 else 0)
      ≤ (if occursIn (lc k) (lc t2) = true then (15 : ℕ) else 0) := by
    by_cases h : occursIn (lc k) (lc t1) = true
    · rw [if_pos h, if_pos (ht h)]
    · rw [if_neg h]
      exact Nat.zero_le _
  have h5 : (if occursIn (lc k) (lc e1) = true then 5 else 0)
      ≤ (if occursIn (lc k) (lc e2) = true then (5 : ℕ) else 0) := by
    by_cases h : occursIn (lc k) (lc e1) = true
    · rw [if_pos h, if_pos (he h)]
    · rw [if_neg h]
      exact Nat.zero_le _
  omega

/-- C4, amended: the score of a country is monotone in its individual
signals — whole-word mention count, title containment, extract
containment, synonym occurrences — *provided the special-rule bonus of
that country does not decrease*; without that proviso the claim fails,
because the Taiwan-vs-China and US-vs-Canada special rules are `elif`
pairs, and text added for a country can flip them against it (see the
counterexample). -/
theorem score_monotone_modulo_special_rules (t1 e1 t2 e2 : String)
    (cats : List String) (r k : String)
    (hm : wordBoundaryCount (lc k) (fullTextOf t1 e1 cats)
        ≤ wordBoundaryCount (lc k) (fullTextOf t2 e2 cats))
    (ht : occursIn (lc k) (lc t1) = true → occursIn (lc k) (lc t2) = true)
    (he : occursIn (lc k) (lc e1) = true → occursIn (lc k) (lc e2) = true)
    (hsyn : ∀ p ∈ countrySynonyms,
        occursIn (lc p.1) (fullTextOf t1 e1 cats) = true →
        occursIn (lc p.1) (fullTextOf t2 e2 cats) = true)
    (hsp : specialBonus (fullTextOf t1 e1 cats) r k
        ≤ specialBonus (fullTextOf t2 e2 cats) r k) :
    dictGet (countryScoresFinal t1 e1 cats r) k 0
      ≤ dictGet (countryScoresFinal t2 e2 cats r) k 0 := by
  have hexp1 : countryScoresFinal t1 e1 cats r
      = applySpecialLocationRules (fullTextOf t1 e1 cats)
          (synonymPass (fullTextOf t1 e1 cats) (regionCountries r)
            (genericScores (fullTextOf t1 e1 cats) t1 e1 cats
              (regionCountries r))) r := rfl
  have hexp2 : countryScoresFinal t2 e2 cats r
      = applySpecialLocationRules (fullTextOf t2 e2 cats)
          (synonymPass (fullTextOf t2 e2 cats) (regionCountries r)
            (genericScores (fullTextOf t2 e2 cats) t2 e2 cats
              (regionCountries r))) r := rfl
  rw [hexp1, hexp2, dictGet_applySpecial, dictGet_applySpecial]
  have hgen := genericScores_mono (fullTextOf t1 e1 cats) (fullTextOf t2 e2 cats)
    t1 e1 t2 e2 cats k
    (countryScore_mono _ _ _ _ _ _ cats k hm ht he)
    (regionCountries r) [] [] (le_refl _) (Nat.zero_le _)
  have hsynm := synonymPass_mono (fullTextOf t1 e1 cats) (fullTextOf t2 e2 cats)
    (regionCountries r) k countrySynonyms hsyn _ _ hgen.1
  exact Nat.add_le_add hsynm hsp

/-- Witness for the amended C4 theorem: adding one more whole-word mention
of "China" to an Asia article raises (here: keeps and grows) China's
score. -/
theorem score_monotone_modulo_special_rules_witness :
    dictGet (countryScoresFinal "China" "" [] "Asia") "China" 0
      ≤ dictGet (countryScoresFinal "China and more China" "" [] "Asia")
          "China" 0 :=
  score_monotone_modulo_special_rules "China" "" "China and more China" ""
    [] "Asia" "China" (by decide) (by decide) (by decide) (by decide) (by decide)

/-- C4, counterexample: the claim "adding any positive-weight signal for
that country without removing other signals can never lower its score" is
false on the code: appending the synonym "people's republic of china" (a
+8-weight China signal, and two extra whole-word "china" mentions) to the
title "mainland china" makes the substring "republic of china" appear, so
the Taiwan branch of the elif special rule fires instead of China's
"mainland china" +40 bonus — China's score drops from 65 to 43. -/
theorem confidence_monotonicity_counterexample :
    dictGet (countryScoresFinal "mainland china" "" [] "Asia") "China" 0 = 65
      ∧ dictGet (countryScoresFinal
            ("mainland china" ++ " people's republic of china") "" [] "Asia")
          "China" 0 = 43
      ∧ (43 : ℕ) < 65 := by
  refine ⟨by decide, by decide, by decide⟩
